import Mathlib

/-!
Verification of the webpack5-cdn-plugin publish pipeline (src/index.ts).

The plugin's `afterEmit` hook classifies assets into entry / style / document /
resource names, uploads resource, style and entry assets through a
content-fingerprint cache, rewrites references and emits a sorted JSON manifest.
The model below is a shallow embedding of that pipeline.  External
collaborators (the `uploadContent` option, the `md5` digest library and the
rewriter helpers imported from `./utils`) are kept abstract as fields of
`Collab`; everything else is translated directly from the source.

Concurrency note: each phase runs its `uploadFile` calls through
`Promise.all(names.map(...))`.  Every mapped call executes synchronously up to
its first `await`, so every cache lookup of a phase (and each `uploadContent`
invocation on a miss) happens before any completion callback mutates
`urlMap`/`urlCacheMap`.  `runPhase` models exactly that schedule: a decision
pass over the phase-start cache followed by an update pass.
-/

namespace CDN

/-- A JavaScript value as returned by the `uploadContent` collaborator
(`Promise<string | null | undefined>` by its declared type, but the code also
guards against non-string values with `typeof url === 'string'`). -/
inductive JsVal where
  | str (s : String)
  | nullv
  | undef
  | num (n : Int)
  | boolv (b : Bool)
deriving Repr, DecidableEq

/-- The guard `url && typeof url === 'string'` (line 150): the value is used
only when it is a truthy string, i.e. a non-empty string. -/
def usableUrl : JsVal → Option String
  | .str s => if s = "" then none else some s
  | _ => none

/-- `Map.get` on a JS `Map<string, string>` (insertion-ordered association
list). -/
def mget (m : List (String × String)) (k : String) : Option String :=
  match m with
  | [] => none
  | p :: t => if p.1 = k then some p.2 else mget t k

/-- `Map.set`: updates the value in place when the key exists (JS maps keep the
original insertion position), otherwise appends the new entry. -/
def mset (m : List (String × String)) (k v : String) : List (String × String) :=
  if (mget m k).isSome then
    m.map (fun p => if p.1 = k then (k, v) else p)
  else
    m ++ [(k, v)]

/-- `Set.add` on a JS `Set<string>` (insertion-ordered, deduplicating). -/
def addName (l : List String) (n : String) : List String :=
  if n ∈ l then l else l ++ [n]

/-- Model of the JS `String.prototype.endsWith` suffix test used by the
classifier, as a structural recursion over the character lists. -/
def strEndsWith (s suffix : String) : Bool :=
  suffix.data.isSuffixOf s.data

/-- Model of Node's `path.extname`: the final extension of the basename. -/
def extname (p : String) : String :=
  let base := (p.splitOn "/").getLastD ""
  let parts := base.splitOn "."
  if parts.length ≤ 1 then ""
  else if base.startsWith "." ∧ parts.length = 2 then ""
  else "." ++ parts.getLastD ""

/-- The external collaborators of the pipeline: the injected upload function,
the `md5` digest library, the platform's locale-sensitive collation
`String.prototype.localeCompare` (returning a negative, zero or positive
number; its exact ordering depends on the host locale and ICU data, so it is
kept abstract), and the three rewriters imported from `./utils` (whose
internals the pipeline treats as opaque text transformations). -/
structure Collab where
  uploadContent : String → String → String → JsVal
  md5 : String → String
  localeCompare : String → String → Int
  replaceCSSUrls : String → String → List (String × String) → String
  injectAssetManifest : String → String → String
  interpolateHTMLAssets : String → List (String × String) → String → String

/-- Observable state of one publish cycle: the per-build `urlMap`, the
persistent `urlCacheMap`, and logs of the side effects performed
(`uploadContent` invocations, `fs.unlink` deletions, `fs.writeFile`
overwrites). -/
structure St where
  urlMap : List (String × String)
  cache : List (String × String)
  uploads : List (String × String)
  deleted : List String
  overwritten : List (String × String)
deriving Repr, DecidableEq

/-- The synchronous part of `uploadFile` (lines 142-149): look the fingerprint
up in `urlCacheMap`; a truthy cached string short-circuits `||`, anything else
(missing entry, or a cached empty string, which is falsy) invokes
`uploadContent`.  Returns the upload invocation performed (if any) together
with the url value that the rest of `uploadFile` will inspect. -/
def decideUrl (co : Collab) (cache : List (String × String)) (n c : String) :
    Option (String × String) × JsVal :=
  match mget cache (co.md5 c) with
  | some u =>
      if u = "" then (some (n, c), co.uploadContent n c (extname n))
      else (none, .str u)
  | none => (some (n, c), co.uploadContent n c (extname n))

/-- The completion part of `uploadFile` (lines 150-156): when the url is a
truthy string, record it in `urlMap` and `urlCacheMap`, and delete the local
file unless `keepLocalFiles` is set. -/
def applyDec (co : Collab) (keep : Bool) (st : St)
    (d : (String × String) × (Option (String × String) × JsVal)) : St :=
  match usableUrl d.2.2 with
  | some u =>
      let st1 := { st with
        urlMap := mset st.urlMap d.1.1 u
        cache := mset st.cache (co.md5 d.1.2) u }
      if keep then st1 else { st1 with deleted := st1.deleted ++ [d.1.1] }
  | none => st

/-- One `await Promise.all(items.map(name => uploadFile(name, content, so)))`
phase.  `items` pairs each processed name with the content handed to
`uploadFile` (already rewritten by the caller for the style and entry phases).
When `so` ("shouldOverwrite") is set, every item's local file is first
overwritten with its content (lines 139-141).  All cache decisions are made
against the phase-start cache (see the concurrency note above), then the
completions update the maps in order. -/
def runPhase (co : Collab) (keep so : Bool) (items : List (String × String))
    (st : St) : St :=
  let stO := if so then { st with overwritten := st.overwritten ++ items } else st
  let decs := items.map (fun p => (p, decideUrl co stO.cache p.1 p.2))
  let stU := { stO with uploads := stO.uploads ++ decs.filterMap (fun d => d.2.1) }
  decs.foldl (applyDec co keep) stU

/-- The four name sets built by the classification block (lines 159-179). -/
structure Classified where
  epNames : List String
  styleNames : List String
  htmlNames : List String
  resourceNames : List String
deriving Repr, DecidableEq

/-- One step of the `stats.assets` loop (lines 173-178): an entry-point name
is skipped, otherwise the `.css` / `.html` suffix chooses the set. -/
def classifyStep (acc : Classified) (n : String) : Classified :=
  if n ∈ acc.epNames then acc
  else if strEndsWith n ".css" then { acc with styleNames := addName acc.styleNames n }
  else if strEndsWith n ".html" then { acc with htmlNames := addName acc.htmlNames n }
  else { acc with resourceNames := addName acc.resourceNames n }

/-- The classification block (lines 159-179): `epNames` collects every asset
name declared by an entry point; the remaining assets are filtered of `.map`
files and partitioned by `classifyStep`. -/
def classifyAssets (entryNames : List String) (assetNames : List String) :
    Classified :=
  let ep := entryNames.foldl addName []
  (assetNames.filter (fun n => !(strEndsWith n ".map"))).foldl classifyStep
    { epNames := ep, styleNames := [], htmlNames := [], resourceNames := [] }

/-- Lowercase hexadecimal digit, used by the `\u00XX` escapes that
`JSON.stringify` emits for control characters. -/
def hexDigit (n : Nat) : String :=
  if n = 0 then "0" else if n = 1 then "1" else if n = 2 then "2"
  else if n = 3 then "3" else if n = 4 then "4" else if n = 5 then "5"
  else if n = 6 then "6" else if n = 7 then "7" else if n = 8 then "8"
  else if n = 9 then "9" else if n = 10 then "a" else if n = 11 then "b"
  else if n = 12 then "c" else if n = 13 then "d" else if n = 14 then "e"
  else "f"

/-- `JSON.stringify` escaping of one character inside a string literal. -/
def jsonEscapeChar (c : Char) : String :=
  if c = '"' then "\\\""
  else if c = '\\' then "\\\\"
  else if c = '\n' then "\\n"
  else if c = '\r' then "\\r"
  else if c = '\t' then "\\t"
  else if c = '\x08' then "\\b"
  else if c = '\x0c' then "\\f"
  else if c.toNat < 32 then "\\u00" ++ hexDigit (c.toNat / 16) ++ hexDigit (c.toNat % 16)
  else String.singleton c

/-- A JSON string literal for `s`. -/
def jsonQuote (s : String) : String :=
  "\"" ++ String.join (s.data.map jsonEscapeChar) ++ "\""

/-- `JSON.stringify(obj)` for a flat string-to-string object with fields in
the given order. -/
def renderCompact (es : List (String × String)) : String :=
  "\x7b" ++ String.intercalate "," (es.map (fun p => jsonQuote p.1 ++ ":" ++ jsonQuote p.2)) ++ "\x7d"

/-- `JSON.stringify(obj, null, 2)` for the same object: identical fields in
the identical order, with two-space indentation. -/
def renderPretty (es : List (String × String)) : String :=
  match es with
  | [] => "\x7b\x7d"
  | _ => "\x7b\n" ++
      String.intercalate ",\n"
        (es.map (fun p => "  " ++ jsonQuote p.1 ++ ": " ++ jsonQuote p.2)) ++
      "\n\x7d"

/-- The comparator `(a, b) => a[0].localeCompare(b[0])` of line 108, as the
"does not sort after" relation induced by the collation `cmp` (the model of
`String.prototype.localeCompare`): a non-positive comparator result keeps
`p` at or before `q`. -/
def keyLe (cmp : String → String → Int) (p q : String × String) : Prop :=
  cmp p.1 q.1 ≤ 0

instance keyLeDecidable (cmp : String → String → Int) :
    DecidableRel (keyLe cmp) :=
  fun p q => inferInstanceAs (Decidable (cmp p.1 q.1 ≤ 0))

/-- The sorted entry list `[...urlMap.entries()].sort(...)` of line 108:
`Array.prototype.sort` with a comparator is a stable sort (ES2019), so it is
modelled by the stable insertion sort — entries whose keys the collation
ties keep their relative insertion order. -/
def sortedEntries (cmp : String → String → Int)
    (urlMap : List (String × String)) : List (String × String) :=
  urlMap.insertionSort (keyLe cmp)

/-- `getManifestJSON` (lines 104-113): serialize the `urlMap` entries sorted
by the `localeCompare` collation; `format` selects
`JSON.stringify(..., null, 2)` over the compact form. -/
def getManifestJSON (cmp : String → String → Int)
    (urlMap : List (String × String)) (format : Bool) : String :=
  if format then renderPretty (sortedEntries cmp urlMap)
  else renderCompact (sortedEntries cmp urlMap)

/-- A concrete collation for sample builds: code-point comparison, a
consistent comparator that never ties distinct keys (the behavior
`localeCompare` exhibits on, e.g., distinct lowercase-ASCII asset names). -/
def cmpCode (a b : String) : Int :=
  if a = b then 0 else if a < b then -1 else 1

/-- A collation with the documented default-locale behavior of
`localeCompare` on canonically-equivalent names: the two distinct strings
`"é"` (U+00E9) and `"e" + U+0301` (combining acute) collate equal, as ICU
compares canonical forms; every other pair falls back to code-point
order. -/
def cmpCanon (a b : String) : Int :=
  if a = b then 0
  else if (a = "\u00e9" ∨ a = "e\u0301") ∧ (b = "\u00e9" ∨ b = "e\u0301")
    then 0
  else if a < b then -1 else 1

/-- The inputs the `afterEmit` hook reads from the compilation: the asset
names declared by entry points (`stats.entrypoints`), the emitted asset names
(`stats.assets`) and the content snapshot taken by the `emit` hook
(`assetMap`). -/
structure EmitInput where
  entryNames : List String
  assetNames : List String
  assetMap : List (String × String)
deriving Repr, DecidableEq

/-- `assetMap.get(name)!` — every emitted asset was recorded by the `emit`
hook, so the lookup is asserted non-null; a missing name defaults to the
empty content. -/
def getAsset (inp : EmitInput) (n : String) : String :=
  (mget inp.assetMap n).getD ""

/-- The `manifestFilename` option: `boolean | string | undefined`. -/
inductive MFOpt where
  | bool (b : Bool)
  | str (s : String)
  | undef
deriving Repr, DecidableEq

/-- JS truthiness of the `manifestFilename` option (line 223). -/
def mfTruthy : MFOpt → Bool
  | .bool b => b
  | .str s => s ≠ ""
  | .undef => false

/-- `manifestFilename === true ? 'manifest.json' : manifestFilename`
(line 225). -/
def mfName : MFOpt → String
  | .bool _ => "manifest.json"
  | .str s => s
  | .undef => "manifest.json"

/-- State at the start of `afterEmit`: fresh `urlMap`, the `urlCacheMap`
loaded by the `initialize` hook, and no side effects yet. -/
def stInit (cache0 : List (String × String)) : St :=
  { urlMap := [], cache := cache0, uploads := [], deleted := [], overwritten := [] }

/-- The items of the resource phase (lines 181-185): raw contents, no local
overwrite. -/
def resourceItems (inp : EmitInput) : List (String × String) :=
  (classifyAssets inp.entryNames inp.assetNames).resourceNames.map
    (fun n => (n, getAsset inp n))

/-- State after the resource phase. -/
def stAfterResource (co : Collab) (keep : Bool) (inp : EmitInput)
    (cache0 : List (String × String)) : St :=
  runPhase co keep false (resourceItems inp) (stInit cache0)

/-- The items of the style phase (lines 187-195): each stylesheet is rewritten
by `replaceCSSUrls` against the `urlMap` produced by the resource phase. -/
def styleItems (co : Collab) (keep : Bool) (inp : EmitInput)
    (cache0 : List (String × String)) : List (String × String) :=
  (classifyAssets inp.entryNames inp.assetNames).styleNames.map
    (fun n => (n, co.replaceCSSUrls n (getAsset inp n)
      (stAfterResource co keep inp cache0).urlMap))

/-- State after the style phase. -/
def stAfterStyle (co : Collab) (keep : Bool) (inp : EmitInput)
    (cache0 : List (String × String)) : St :=
  runPhase co keep true (styleItems co keep inp cache0)
    (stAfterResource co keep inp cache0)

/-- The manifest string handed to `injectAssetManifest` for entry asset `n`
(line 203): `getManifestJSON()` evaluated in the synchronous prefix of the
entry phase, i.e. over the `urlMap` as the style phase left it. -/
def entryManifestArg (co : Collab) (keep : Bool) (inp : EmitInput)
    (cache0 : List (String × String)) : String :=
  getManifestJSON co.localeCompare (stAfterStyle co keep inp cache0).urlMap
    false

/-- The items of the entry phase (lines 197-208): each entry script gets the
manifest injected before upload. -/
def entryItems (co : Collab) (keep : Bool) (inp : EmitInput)
    (cache0 : List (String × String)) : List (String × String) :=
  (classifyAssets inp.entryNames inp.assetNames).epNames.map
    (fun n => (n, co.injectAssetManifest (getAsset inp n)
      (entryManifestArg co keep inp cache0)))

/-- State after the entry phase. -/
def stAfterEntry (co : Collab) (keep : Bool) (inp : EmitInput)
    (cache0 : List (String × String)) : St :=
  runPhase co keep true (entryItems co keep inp cache0)
    (stAfterStyle co keep inp cache0)

/-- The document phase (lines 210-221): every markup asset is interpolated
against the final `urlMap` and manifest and overwritten in place; nothing is
uploaded and no map gains an entry. -/
def stAfterDocs (co : Collab) (keep : Bool) (inp : EmitInput)
    (cache0 : List (String × String)) : St :=
  let st := stAfterEntry co keep inp cache0
  let docWrites := (classifyAssets inp.entryNames inp.assetNames).htmlNames.map
    (fun n => (n, co.interpolateHTMLAssets (getAsset inp n) st.urlMap
      (getManifestJSON co.localeCompare st.urlMap false)))
  { st with overwritten := st.overwritten ++ docWrites }

/-- The full `afterEmit` hook (lines 100-229): the four phases followed by the
optional manifest file write (lines 223-228). -/
def stFinal (co : Collab) (keep : Bool) (mf : MFOpt) (inp : EmitInput)
    (cache0 : List (String × String)) : St :=
  let st := stAfterDocs co keep inp cache0
  if mfTruthy mf then
    { st with overwritten := st.overwritten ++
        [(mfName mf, getManifestJSON co.localeCompare st.urlMap true)] }
  else st

/-- The `initialize` hook (lines 52-59).  `JSON.parse` is the platform's JSON
parser, modelled as the collaborator `parse` that returns `none` exactly when
`JSON.parse` would throw a `SyntaxError`.  A missing state file leaves the
cache as the empty map of line 50; the code wraps the parse in no
`try`/`catch`, so a parse failure propagates out of the hook. -/
def loadCache (parse : String → Option (List (String × String)))
    (fileExists : Bool) (fileContents : String) :
    Except String (List (String × String)) :=
  if fileExists then
    match parse fileContents with
    | some m => Except.ok m
    | none => Except.error "SyntaxError: Unexpected token"
  else Except.ok []

/-- `process.env.NODE_ENV || compiler.options.mode` (line 32): an environment
variable that is unset or empty is falsy and falls through to the mode. -/
def envOrMode (nodeEnv mode : Option String) : Option String :=
  match nodeEnv with
  | some s => if s = "" then mode else some s
  | none => mode

/-- The production-mode guard of `apply` (lines 30-34): the plugin installs
its hooks only when the resolved signal is exactly `'production'`. -/
def pluginEnabled (nodeEnv mode : Option String) : Bool :=
  envOrMode nodeEnv mode = some "production"

/-- Truthiness of `compilation.outputOptions.publicPath` (line 63). -/
def publicPathTruthy : Option String → Bool
  | some s => s ≠ ""
  | none => false

/-- The `thisCompilation` validation (lines 60-66) followed by the publish
pipeline: a truthy `publicPath` throws before any classification, rewriting
or uploading happens. -/
def runBuild (publicPath : Option String) (co : Collab) (keep : Bool)
    (mf : MFOpt) (inp : EmitInput) (cache0 : List (String × String)) :
    Except String St :=
  if publicPathTruthy publicPath then
    Except.error "Error: You should set publicPath to \"\""
  else Except.ok (stFinal co keep mf inp cache0)

/-- The whole `apply` (lines 30-240, the hook bodies summarised by
`runBuild`): `none` when the production-mode guard makes the plugin a
no-op. -/
def runPlugin (nodeEnv mode publicPath : Option String) (co : Collab)
    (keep : Bool) (mf : MFOpt) (inp : EmitInput)
    (cache0 : List (String × String)) : Option (Except String St) :=
  if pluginEnabled nodeEnv mode then
    some (runBuild publicPath co keep mf inp cache0)
  else none

/-- A concrete collaborator set used to evaluate the model on sample builds:
the uploader returns a location derived from the content, the digest is the
identity on contents, and the rewriters are simple total functions. -/
def coS : Collab :=
  { uploadContent := fun _ c _ => .str ("cdn/" ++ c)
    md5 := fun s => s
    localeCompare := cmpCode
    replaceCSSUrls := fun _ c _ => c
    injectAssetManifest := fun c m => c ++ m
    interpolateHTMLAssets := fun c _ _ => c }

/-- A collaborator set whose uploader never returns a usable location. -/
def coN : Collab :=
  { uploadContent := fun _ _ _ => .nullv
    md5 := fun s => s
    localeCompare := cmpCode
    replaceCSSUrls := fun _ c _ => c
    injectAssetManifest := fun c m => c ++ m
    interpolateHTMLAssets := fun c _ _ => c }

/-- A sample build: one entry script, one stylesheet, one document, two
resources with identical bytes, and one source map. -/
def inpS : EmitInput :=
  { entryNames := ["main.js"]
    assetNames := ["main.js", "a.png", "b.png", "s.css", "i.html", "x.map"]
    assetMap := [("main.js", "MJ"), ("a.png", "X"), ("b.png", "X"),
      ("s.css", "CSS"), ("i.html", "HTML"), ("x.map", "MAP")] }

theorem mget_map_update_self (m : List (String × String)) (k v : String)
    (h : (mget m k).isSome) :
    mget (m.map (fun p => if p.1 = k then (k, v) else p)) k = some v := by
  induction m with
  | nil => simp [mget] at h
  | cons p t ih =>
    by_cases hp : p.1 = k
    · simp [mget, hp]
    · simp only [mget, hp, if_false] at h
      simpa [mget, hp] using ih h

theorem mget_map_update_ne (m : List (String × String)) (k k1 v : String)
    (h : k1 ≠ k) :
    mget (m.map (fun p => if p.1 = k then (k, v) else p)) k1 = mget m k1 := by
  induction m with
  | nil => simp [mget]
  | cons p t ih =>
    by_cases hp : p.1 = k
    · simp [mget, hp, Ne.symm h, ih]
    · by_cases hp1 : p.1 = k1
      · simp [mget, hp, hp1, h]
      · simp [mget, hp, hp1, ih]

theorem mget_append_single (m : List (String × String)) (k k1 v : String) :
    mget (m ++ [(k, v)]) k1 =
      match mget m k1 with
      | some u => some u
      | none => if k = k1 then some v else none := by
  induction m with
  | nil => simp [mget]
  | cons p t ih =>
    by_cases hp : p.1 = k1
    · simp [mget, hp]
    · simp [mget, hp, ih]

theorem mget_mset_self (m : List (String × String)) (k v : String) :
    mget (mset m k v) k = some v := by
  unfold mset
  by_cases h : (mget m k).isSome
  · simpa [h] using mget_map_update_self m k v h
  · have hn : mget m k = none := by
      cases hm : mget m k with
      | none => rfl
      | some u => rw [hm] at h; simp at h
    simp [h, mget_append_single, hn]

theorem mget_mset_ne (m : List (String × String)) (k k1 v : String)
    (h : k1 ≠ k) : mget (mset m k v) k1 = mget m k1 := by
  unfold mset
  by_cases hs : (mget m k).isSome
  · simpa [hs] using mget_map_update_ne m k k1 v h
  · rw [if_neg hs, mget_append_single]
    cases hm : mget m k1 with
    | none => simp [Ne.symm h]
    | some u => simp

theorem mem_addName (l : List String) (m n : String) :
    n ∈ addName l m ↔ n ∈ l ∨ n = m := by
  unfold addName
  by_cases h : m ∈ l
  · simp only [h, if_true]
    constructor
    · exact Or.inl
    · rintro (hn | rfl)
      · exact hn
      · exact h
  · simp [h]

theorem mem_foldl_addName (ns : List String) (l : List String) (n : String) :
    n ∈ ns.foldl addName l ↔ n ∈ l ∨ n ∈ ns := by
  induction ns generalizing l with
  | nil => simp
  | cons m t ih =>
    simp only [List.foldl_cons, ih, mem_addName, List.mem_cons]
    tauto

theorem classifyStep_epNames (acc : Classified) (n : String) :
    (classifyStep acc n).epNames = acc.epNames := by
  unfold classifyStep
  by_cases h1 : n ∈ acc.epNames
  · simp [h1]
  · by_cases h2 : strEndsWith n ".css"
    · simp [h1, h2]
    · by_cases h3 : strEndsWith n ".html"
      · simp [h1, h2, h3]
      · simp [h1, h2, h3]

theorem foldl_classifyStep_epNames (ns : List String) (acc : Classified) :
    (ns.foldl classifyStep acc).epNames = acc.epNames := by
  induction ns generalizing acc with
  | nil => rfl
  | cons m t ih => rw [List.foldl_cons, ih, classifyStep_epNames]

theorem classifyStep_styleNames (acc : Classified) (n : String) :
    (classifyStep acc n).styleNames =
      if n ∉ acc.epNames ∧ strEndsWith n ".css" = true then
        addName acc.styleNames n
      else acc.styleNames := by
  unfold classifyStep
  by_cases h1 : n ∈ acc.epNames
  · simp [h1]
  · by_cases h2 : strEndsWith n ".css"
    · simp [h1, h2]
    · by_cases h3 : strEndsWith n ".html" <;> simp [h1, h2, h3]

theorem classifyStep_htmlNames (acc : Classified) (n : String) :
    (classifyStep acc n).htmlNames =
      if n ∉ acc.epNames ∧ strEndsWith n ".css" = false ∧
          strEndsWith n ".html" = true then
        addName acc.htmlNames n
      else acc.htmlNames := by
  unfold classifyStep
  by_cases h1 : n ∈ acc.epNames
  · simp [h1]
  · by_cases h2 : strEndsWith n ".css"
    · simp [h1, h2]
    · by_cases h3 : strEndsWith n ".html" <;> simp [h1, h2, h3]

theorem classifyStep_resourceNames (acc : Classified) (n : String) :
    (classifyStep acc n).resourceNames =
      if n ∉ acc.epNames ∧ strEndsWith n ".css" = false ∧
          strEndsWith n ".html" = false then
        addName acc.resourceNames n
      else acc.resourceNames := by
  unfold classifyStep
  by_cases h1 : n ∈ acc.epNames
  · simp [h1]
  · by_cases h2 : strEndsWith n ".css"
    · simp [h1, h2]
    · by_cases h3 : strEndsWith n ".html" <;> simp [h1, h2, h3]

theorem mem_foldl_styleNames (ns : List String) (acc : Classified) (n : String) :
    n ∈ (ns.foldl classifyStep acc).styleNames ↔
      n ∈ acc.styleNames ∨
        (n ∈ ns ∧ n ∉ acc.epNames ∧ strEndsWith n ".css" = true) := by
  induction ns generalizing acc with
  | nil => simp
  | cons m t ih =>
    rw [List.foldl_cons, ih, classifyStep_epNames, classifyStep_styleNames]
    constructor
    · rintro (hs | ⟨ht, hep, hcss⟩)
      · by_cases hcond : m ∉ acc.epNames ∧ strEndsWith m ".css" = true
        · rw [if_pos hcond] at hs
          rcases (mem_addName _ _ _).1 hs with hs | rfl
          · exact Or.inl hs
          · exact Or.inr ⟨List.mem_cons_self _ _, hcond.1, hcond.2⟩
        · rw [if_neg hcond] at hs
          exact Or.inl hs
      · exact Or.inr ⟨List.mem_cons_of_mem _ ht, hep, hcss⟩
    · rintro (hs | ⟨hmem, hep, hcss⟩)
      · left
        by_cases hcond : m ∉ acc.epNames ∧ strEndsWith m ".css" = true
        · rw [if_pos hcond]
          exact (mem_addName _ _ _).2 (Or.inl hs)
        · rw [if_neg hcond]
          exact hs
      · rcases List.mem_cons.1 hmem with rfl | ht
        · left
          rw [if_pos ⟨hep, hcss⟩]
          exact (mem_addName _ _ _).2 (Or.inr rfl)
        · exact Or.inr ⟨ht, hep, hcss⟩

theorem mem_foldl_htmlNames (ns : List String) (acc : Classified) (n : String) :
    n ∈ (ns.foldl classifyStep acc).htmlNames ↔
      n ∈ acc.htmlNames ∨
        (n ∈ ns ∧ n ∉ acc.epNames ∧ strEndsWith n ".css" = false ∧
          strEndsWith n ".html" = true) := by
  induction ns generalizing acc with
  | nil => simp
  | cons m t ih =>
    rw [List.foldl_cons, ih, classifyStep_epNames, classifyStep_htmlNames]
    constructor
    · rintro (hs | ⟨ht, hep, hcss, hhtml⟩)
      · by_cases hcond : m ∉ acc.epNames ∧ strEndsWith m ".css" = false ∧
            strEndsWith m ".html" = true
        · rw [if_pos hcond] at hs
          rcases (mem_addName _ _ _).1 hs with hs | rfl
          · exact Or.inl hs
          · exact Or.inr ⟨List.mem_cons_self _ _, hcond.1, hcond.2⟩
        · rw [if_neg hcond] at hs
          exact Or.inl hs
      · exact Or.inr ⟨List.mem_cons_of_mem _ ht, hep, hcss, hhtml⟩
    · rintro (hs | ⟨hmem, hep, hcss, hhtml⟩)
      · left
        by_cases hcond : m ∉ acc.epNames ∧ strEndsWith m ".css" = false ∧
            strEndsWith m ".html" = true
        · rw [if_pos hcond]
          exact (mem_addName _ _ _).2 (Or.inl hs)
        · rw [if_neg hcond]
          exact hs
      · rcases List.mem_cons.1 hmem with rfl | ht
        · left
          rw [if_pos ⟨hep, hcss, hhtml⟩]
          exact (mem_addName _ _ _).2 (Or.inr rfl)
        · exact Or.inr ⟨ht, hep, hcss, hhtml⟩

theorem mem_foldl_resourceNames (ns : List String) (acc : Classified)
    (n : String) :
    n ∈ (ns.foldl classifyStep acc).resourceNames ↔
      n ∈ acc.resourceNames ∨
        (n ∈ ns ∧ n ∉ acc.epNames ∧ strEndsWith n ".css" = false ∧
          strEndsWith n ".html" = false) := by
  induction ns generalizing acc with
  | nil => simp
  | cons m t ih =>
    rw [List.foldl_cons, ih, classifyStep_epNames, classifyStep_resourceNames]
    constructor
    · rintro (hs | ⟨ht, hep, hcss, hhtml⟩)
      · by_cases hcond : m ∉ acc.epNames ∧ strEndsWith m ".css" = false ∧
            strEndsWith m ".html" = false
        · rw [if_pos hcond] at hs
          rcases (mem_addName _ _ _).1 hs with hs | rfl
          · exact Or.inl hs
          · exact Or.inr ⟨List.mem_cons_self _ _, hcond.1, hcond.2⟩
        · rw [if_neg hcond] at hs
          exact Or.inl hs
      · exact Or.inr ⟨List.mem_cons_of_mem _ ht, hep, hcss, hhtml⟩
    · rintro (hs | ⟨hmem, hep, hcss, hhtml⟩)
      · left
        by_cases hcond : m ∉ acc.epNames ∧ strEndsWith m ".css" = false ∧
            strEndsWith m ".html" = false
        · rw [if_pos hcond]
          exact (mem_addName _ _ _).2 (Or.inl hs)
        · rw [if_neg hcond]
          exact hs
      · rcases List.mem_cons.1 hmem with rfl | ht
        · left
          rw [if_pos ⟨hep, hcss, hhtml⟩]
          exact (mem_addName _ _ _).2 (Or.inr rfl)
        · exact Or.inr ⟨ht, hep, hcss, hhtml⟩

theorem mem_epNames_classify (e a : List String) (n : String) :
    n ∈ (classifyAssets e a).epNames ↔ n ∈ e := by
  unfold classifyAssets
  rw [foldl_classifyStep_epNames]
  simpa using mem_foldl_addName e [] n

theorem mem_filter_notMap (a : List String) (n : String) :
    n ∈ a.filter (fun x => !(strEndsWith x ".map")) ↔
      n ∈ a ∧ strEndsWith n ".map" = false := by
  rw [List.mem_filter]
  simp

theorem mem_styleNames_classify (e a : List String) (n : String) :
    n ∈ (classifyAssets e a).styleNames ↔
      n ∈ a ∧ strEndsWith n ".map" = false ∧ n ∉ e ∧
        strEndsWith n ".css" = true := by
  unfold classifyAssets
  rw [mem_foldl_styleNames]
  have hep : n ∈ e.foldl addName [] ↔ n ∈ e := by
    simpa using mem_foldl_addName e [] n
  rw [mem_filter_notMap]
  constructor
  · rintro (hs | ⟨⟨ha, hmap⟩, hnep, hcss⟩)
    · simp at hs
    · exact ⟨ha, hmap, fun hne => hnep (hep.2 hne), hcss⟩
  · rintro ⟨ha, hmap, hnep, hcss⟩
    exact Or.inr ⟨⟨ha, hmap⟩, fun hne => hnep (hep.1 hne), hcss⟩

theorem mem_htmlNames_classify (e a : List String) (n : String) :
    n ∈ (classifyAssets e a).htmlNames ↔
      n ∈ a ∧ strEndsWith n ".map" = false ∧ n ∉ e ∧
        strEndsWith n ".css" = false ∧ strEndsWith n ".html" = true := by
  unfold classifyAssets
  rw [mem_foldl_htmlNames]
  have hep : n ∈ e.foldl addName [] ↔ n ∈ e := by
    simpa using mem_foldl_addName e [] n
  rw [mem_filter_notMap]
  constructor
  · rintro (hs | ⟨⟨ha, hmap⟩, hnep, hcss, hhtml⟩)
    · simp at hs
    · exact ⟨ha, hmap, fun hne => hnep (hep.2 hne), hcss, hhtml⟩
  · rintro ⟨ha, hmap, hnep, hcss, hhtml⟩
    exact Or.inr ⟨⟨ha, hmap⟩, fun hne => hnep (hep.1 hne), hcss, hhtml⟩

theorem mem_resourceNames_classify (e a : List String) (n : String) :
    n ∈ (classifyAssets e a).resourceNames ↔
      n ∈ a ∧ strEndsWith n ".map" = false ∧ n ∉ e ∧
        strEndsWith n ".css" = false ∧ strEndsWith n ".html" = false := by
  unfold classifyAssets
  rw [mem_foldl_resourceNames]
  have hep : n ∈ e.foldl addName [] ↔ n ∈ e := by
    simpa using mem_foldl_addName e [] n
  rw [mem_filter_notMap]
  constructor
  · rintro (hs | ⟨⟨ha, hmap⟩, hnep, hcss, hhtml⟩)
    · simp at hs
    · exact ⟨ha, hmap, fun hne => hnep (hep.2 hne), hcss, hhtml⟩
  · rintro ⟨ha, hmap, hnep, hcss, hhtml⟩
    exact Or.inr ⟨⟨ha, hmap⟩, fun hne => hnep (hep.1 hne), hcss, hhtml⟩

theorem decideUrl_hit (co : Collab) (cache : List (String × String))
    (n c u : String) (hm : mget cache (co.md5 c) = some u) (hu : u ≠ "") :
    decideUrl co cache n c = (none, .str u) := by
  unfold decideUrl
  rw [hm]
  simp [hu]

theorem decideUrl_fst_eq (co : Collab) (cache : List (String × String))
    (n c : String) :
    (decideUrl co cache n c).1 = none ∨
      ((decideUrl co cache n c).1 = some (n, c) ∧
        (mget cache (co.md5 c) = none ∨ mget cache (co.md5 c) = some "")) := by
  unfold decideUrl
  cases hm : mget cache (co.md5 c) with
  | none => exact Or.inr ⟨rfl, Or.inl rfl⟩
  | some u =>
    by_cases hu : u = ""
    · subst hu
      simp
    · simp [hu]

theorem applyDec_uploads (co : Collab) (keep : Bool) (st : St)
    (d : (String × String) × (Option (String × String) × JsVal)) :
    (applyDec co keep st d).uploads = st.uploads := by
  unfold applyDec
  cases usableUrl d.2.2 with
  | none => rfl
  | some u => cases keep <;> rfl

theorem applyDec_overwritten (co : Collab) (keep : Bool) (st : St)
    (d : (String × String) × (Option (String × String) × JsVal)) :
    (applyDec co keep st d).overwritten = st.overwritten := by
  unfold applyDec
  cases usableUrl d.2.2 with
  | none => rfl
  | some u => cases keep <;> rfl

theorem applyDec_deleted_sub (co : Collab) (keep : Bool) (st : St)
    (d : (String × String) × (Option (String × String) × JsVal)) (x : String)
    (hx : x ∈ st.deleted) : x ∈ (applyDec co keep st d).deleted := by
  unfold applyDec
  cases usableUrl d.2.2 with
  | none => exact hx
  | some u =>
    cases keep with
    | false => exact List.mem_append_left _ hx
    | true => exact hx

theorem applyDec_deleted_self (co : Collab) (st : St)
    (d : (String × String) × (Option (String × String) × JsVal)) (u : String)
    (hu : usableUrl d.2.2 = some u) :
    d.1.1 ∈ (applyDec co false st d).deleted := by
  unfold applyDec
  rw [hu]
  simp

theorem applyDec_urlMap_other (co : Collab) (keep : Bool) (st : St)
    (d : (String × String) × (Option (String × String) × JsVal)) (k : String)
    (hk : k ≠ d.1.1) :
    mget (applyDec co keep st d).urlMap k = mget st.urlMap k := by
  unfold applyDec
  cases usableUrl d.2.2 with
  | none => rfl
  | some u =>
    cases keep with
    | false => exact mget_mset_ne _ _ _ _ hk
    | true => exact mget_mset_ne _ _ _ _ hk

theorem applyDec_urlMap_self (co : Collab) (keep : Bool) (st : St)
    (d : (String × String) × (Option (String × String) × JsVal)) (u : String)
    (hu : usableUrl d.2.2 = some u) :
    mget (applyDec co keep st d).urlMap d.1.1 = some u := by
  unfold applyDec
  rw [hu]
  cases keep with
  | false => exact mget_mset_self _ _ _
  | true => exact mget_mset_self _ _ _

theorem applyDec_urlMap_keys (co : Collab) (keep : Bool) (st : St)
    (d : (String × String) × (Option (String × String) × JsVal)) (k : String)
    (h : (mget (applyDec co keep st d).urlMap k).isSome = true) :
    (mget st.urlMap k).isSome = true ∨ k = d.1.1 := by
  by_cases hk : k = d.1.1
  · exact Or.inr hk
  · rw [applyDec_urlMap_other co keep st d k hk] at h
    exact Or.inl h

theorem foldl_applyDec_uploads (co : Collab) (keep : Bool)
    (decs : List ((String × String) × (Option (String × String) × JsVal)))
    (st : St) :
    (decs.foldl (applyDec co keep) st).uploads = st.uploads := by
  induction decs generalizing st with
  | nil => rfl
  | cons d t ih => rw [List.foldl_cons, ih, applyDec_uploads]

theorem foldl_applyDec_overwritten (co : Collab) (keep : Bool)
    (decs : List ((String × String) × (Option (String × String) × JsVal)))
    (st : St) :
    (decs.foldl (applyDec co keep) st).overwritten = st.overwritten := by
  induction decs generalizing st with
  | nil => rfl
  | cons d t ih => rw [List.foldl_cons, ih, applyDec_overwritten]

theorem foldl_applyDec_deleted_sub (co : Collab) (keep : Bool)
    (decs : List ((String × String) × (Option (String × String) × JsVal)))
    (st : St) (x : String) (hx : x ∈ st.deleted) :
    x ∈ (decs.foldl (applyDec co keep) st).deleted := by
  induction decs generalizing st with
  | nil => exact hx
  | cons d t ih =>
    rw [List.foldl_cons]
    exact ih _ (applyDec_deleted_sub co keep st d x hx)

theorem foldl_applyDec_urlMap_other (co : Collab) (keep : Bool)
    (decs : List ((String × String) × (Option (String × String) × JsVal)))
    (st : St) (k : String) (hk : ∀ d ∈ decs, d.1.1 ≠ k) :
    mget (decs.foldl (applyDec co keep) st).urlMap k = mget st.urlMap k := by
  induction decs generalizing st with
  | nil => rfl
  | cons d t ih =>
    rw [List.foldl_cons, ih _ (fun e he => hk e (List.mem_cons_of_mem _ he)),
      applyDec_urlMap_other]
    exact fun he => hk d (List.mem_cons_self _ _) he.symm

theorem foldl_applyDec_urlMap_keys (co : Collab) (keep : Bool)
    (decs : List ((String × String) × (Option (String × String) × JsVal)))
    (st : St) (k : String)
    (h : (mget (decs.foldl (applyDec co keep) st).urlMap k).isSome = true) :
    (mget st.urlMap k).isSome = true ∨ k ∈ decs.map (fun d => d.1.1) := by
  induction decs generalizing st with
  | nil => exact Or.inl h
  | cons d t ih =>
    rw [List.foldl_cons] at h
    rcases ih _ h with h1 | h2
    · rcases applyDec_urlMap_keys co keep st d k h1 with h3 | h3
      · exact Or.inl h3
      · right
        rw [List.map_cons, h3]
        exact List.mem_cons_self _ _
    · exact Or.inr (by rw [List.map_cons]; exact List.mem_cons_of_mem _ h2)

theorem foldl_applyDec_deleted_tracks (co : Collab)
    (decs : List ((String × String) × (Option (String × String) × JsVal)))
    (st : St) (k : String)
    (h : (mget (decs.foldl (applyDec co false) st).urlMap k).isSome = true) :
    (mget st.urlMap k).isSome = true ∨
      k ∈ (decs.foldl (applyDec co false) st).deleted := by
  induction decs generalizing st with
  | nil => exact Or.inl h
  | cons d t ih =>
    rw [List.foldl_cons] at h ⊢
    rcases ih _ h with h1 | h2
    · cases hu : usableUrl d.2.2 with
      | none =>
        left
        have : applyDec co false st d = st := by
          unfold applyDec
          rw [hu]
        rwa [this] at h1
      | some u =>
        by_cases hk : k = d.1.1
        · right
          subst hk
          exact foldl_applyDec_deleted_sub co false t _ _
            (applyDec_deleted_self co st d u hu)
        · left
          rwa [applyDec_urlMap_other co false st d k hk] at h1
    · exact Or.inr h2

theorem runPhase_def2 (co : Collab) (keep so : Bool)
    (items : List (String × String)) (st : St) :
    runPhase co keep so items st =
      (items.map (fun p => (p, decideUrl co st.cache p.1 p.2))).foldl
        (applyDec co keep)
        { st with
          overwritten :=
            if so then st.overwritten ++ items else st.overwritten
          uploads := st.uploads ++
            ((items.map (fun p => (p, decideUrl co st.cache p.1 p.2))).filterMap
              (fun d => d.2.1)) } := by
  unfold runPhase
  cases so <;> rfl

theorem runPhase_uploads_mem (co : Collab) (keep so : Bool)
    (items : List (String × String)) (st : St) (p : String × String)
    (hp : p ∈ (runPhase co keep so items st).uploads) :
    p ∈ st.uploads ∨
      (p ∈ items ∧ (mget st.cache (co.md5 p.2) = none ∨
        mget st.cache (co.md5 p.2) = some "")) := by
  rw [runPhase_def2, foldl_applyDec_uploads] at hp
  rcases List.mem_append.1 hp with h | h
  · exact Or.inl h
  · right
    rcases List.mem_filterMap.1 h with ⟨d, hd, hds⟩
    rcases List.mem_map.1 hd with ⟨q, hq, rfl⟩
    rcases decideUrl_fst_eq co st.cache q.1 q.2 with h0 | ⟨h1, h2⟩
    · rw [h0] at hds
      exact absurd hds (by simp)
    · rw [h1] at hds
      have hpq : p = q := by
        have := Option.some.inj hds
        rw [← this]
      subst hpq
      exact ⟨hq, h2⟩

theorem runPhase_urlMap_keys (co : Collab) (keep so : Bool)
    (items : List (String × String)) (st : St) (k : String)
    (h : (mget (runPhase co keep so items st).urlMap k).isSome = true) :
    (mget st.urlMap k).isSome = true ∨ k ∈ items.map Prod.fst := by
  rw [runPhase_def2] at h
  rcases foldl_applyDec_urlMap_keys _ _ _ _ _ h with h1 | h2
  · exact Or.inl h1
  · right
    rw [List.map_map] at h2
    exact h2

theorem runPhase_overwritten (co : Collab) (keep so : Bool)
    (items : List (String × String)) (st : St) :
    (runPhase co keep so items st).overwritten =
      if so then st.overwritten ++ items else st.overwritten := by
  rw [runPhase_def2, foldl_applyDec_overwritten]

theorem runPhase_deleted_tracks (co : Collab) (so : Bool)
    (items : List (String × String)) (st : St) (k : String)
    (h : (mget (runPhase co false so items st).urlMap k).isSome = true) :
    (mget st.urlMap k).isSome = true ∨
      k ∈ (runPhase co false so items st).deleted := by
  rw [runPhase_def2] at h ⊢
  exact foldl_applyDec_deleted_tracks _ _ _ _ h

theorem runPhase_hit (co : Collab) (keep so : Bool)
    (items : List (String × String)) (st : St) (n c u : String)
    (hmem : (n, c) ∈ items) (hm : mget st.cache (co.md5 c) = some u)
    (hu : u ≠ "") (hnd : (items.map Prod.fst).Nodup) :
    mget (runPhase co keep so items st).urlMap n = some u ∧
      (keep = false → n ∈ (runPhase co keep so items st).deleted) := by
  rw [runPhase_def2]
  rcases List.append_of_mem hmem with ⟨l1, l2, rfl⟩
  have hmap : (l1 ++ (n, c) :: l2).map Prod.fst =
      l1.map Prod.fst ++ n :: l2.map Prod.fst := by
    rw [List.map_append, List.map_cons]
  rw [hmap] at hnd
  have hdisj := List.disjoint_of_nodup_append hnd
  have hn1 : n ∉ l1.map Prod.fst := fun hc =>
    hdisj hc (List.mem_cons_self _ _)
  have hn2 : n ∉ l2.map Prod.fst :=
    (List.nodup_cons.1 (hnd.of_append_right)).1
  have hmapg : (l1 ++ (n, c) :: l2).map
        (fun p => (p, decideUrl co st.cache p.1 p.2)) =
      l1.map (fun p => (p, decideUrl co st.cache p.1 p.2)) ++
        ((n, c), decideUrl co st.cache n c) ::
          l2.map (fun p => (p, decideUrl co st.cache p.1 p.2)) := by
    rw [List.map_append, List.map_cons]
  rw [hmapg, List.foldl_append, List.foldl_cons]
  rw [decideUrl_hit co st.cache n c u hm hu]
  have husable : usableUrl (JsVal.str u) = some u := by
    simp [usableUrl, hu]
  have hother : ∀ d ∈ l2.map (fun p => (p, decideUrl co st.cache p.1 p.2)),
      d.1.1 ≠ n := by
    intro d hd
    rcases List.mem_map.1 hd with ⟨q, hq, rfl⟩
    intro hc
    exact hn2 (hc ▸ List.mem_map_of_mem Prod.fst hq)
  constructor
  · rw [foldl_applyDec_urlMap_other _ _ _ _ _ hother]
    exact applyDec_urlMap_self _ _ _ _ _ husable
  · intro hkeep
    subst hkeep
    exact foldl_applyDec_deleted_sub _ _ _ _ _
      (applyDec_deleted_self _ _ _ _ husable)

theorem cmpCode_le_iff (a b : String) : cmpCode a b ≤ 0 ↔ a ≤ b := by
  unfold cmpCode
  by_cases he : a = b
  · simp [he]
  · by_cases hl : a < b
    · simp only [he, if_false, hl, if_true]
      constructor
      · intro _
        exact le_of_lt hl
      · intro _
        decide
    · simp only [he, if_false, hl]
      constructor
      · intro hc
        exact absurd hc (by decide)
      · intro hab
        rcases lt_or_eq_of_le hab with h | h
        · exact absurd h hl
        · exact absurd h he

theorem sortedEntries_perm (cmp : String → String → Int)
    (m : List (String × String)) : (sortedEntries cmp m).Perm m :=
  List.perm_insertionSort (keyLe cmp) m

theorem sortedEntries_pairwise (cmp : String → String → Int)
    (htrans : ∀ a b c : String, cmp a b ≤ 0 → cmp b c ≤ 0 → cmp a c ≤ 0)
    (htotal : ∀ a b : String, cmp a b ≤ 0 ∨ cmp b a ≤ 0)
    (m : List (String × String)) :
    (sortedEntries cmp m).Pairwise (keyLe cmp) := by
  haveI : IsTotal (String × String) (keyLe cmp) :=
    ⟨fun p q => htotal p.1 q.1⟩
  haveI : IsTrans (String × String) (keyLe cmp) :=
    ⟨fun p q s hpq hqs => htrans p.1 q.1 s.1 hpq hqs⟩
  exact List.sorted_insertionSort (keyLe cmp) m

theorem sortedEntries_eq_of_perm (cmp : String → String → Int)
    (m1 m2 : List (String × String))
    (htrans : ∀ a b c : String, cmp a b ≤ 0 → cmp b c ≤ 0 → cmp a c ≤ 0)
    (htotal : ∀ a b : String, cmp a b ≤ 0 ∨ cmp b a ≤ 0)
    (hnd : (m1.map Prod.fst).Nodup)
    (hanti : ∀ k1 ∈ m1.map Prod.fst, ∀ k2 ∈ m1.map Prod.fst,
      cmp k1 k2 ≤ 0 → cmp k2 k1 ≤ 0 → k1 = k2)
    (hp : m1.Perm m2) :
    sortedEntries cmp m1 = sortedEntries cmp m2 := by
  have p1 : (sortedEntries cmp m1).Perm m1 := sortedEntries_perm cmp m1
  have p2 : (sortedEntries cmp m2).Perm m2 := sortedEntries_perm cmp m2
  have pp : (sortedEntries cmp m1).Perm (sortedEntries cmp m2) :=
    p1.trans (hp.trans p2.symm)
  have hnd1 : ((sortedEntries cmp m1).map Prod.fst).Nodup :=
    ((p1.map Prod.fst).nodup_iff).2 hnd
  have hnd2 : ((sortedEntries cmp m2).map Prod.fst).Nodup :=
    ((pp.map Prod.fst).nodup_iff).1 hnd1
  have hne1 : (sortedEntries cmp m1).Pairwise
      (fun p q : String × String => p.1 ≠ q.1) :=
    (List.pairwise_map).1 hnd1
  have hne2 : (sortedEntries cmp m2).Pairwise
      (fun p q : String × String => p.1 ≠ q.1) :=
    (List.pairwise_map).1 hnd2
  have hmem1 : ∀ p : String × String, p ∈ sortedEntries cmp m1 →
      p.1 ∈ m1.map Prod.fst :=
    fun p hq => List.mem_map_of_mem Prod.fst (p1.mem_iff.1 hq)
  have hmem2 : ∀ p : String × String, p ∈ sortedEntries cmp m2 →
      p.1 ∈ m1.map Prod.fst :=
    fun p hq => List.mem_map_of_mem Prod.fst (hp.mem_iff.2 (p2.mem_iff.1 hq))
  have hstrict1 : (sortedEntries cmp m1).Pairwise
      (fun p q : String × String => keyLe cmp p q ∧ ¬ keyLe cmp q p) := by
    refine List.Pairwise.imp_of_mem ?_
      ((sortedEntries_pairwise cmp htrans htotal m1).and hne1)
    intro p q hpm hqm hpq
    refine ⟨hpq.1, fun hqp => hpq.2 ?_⟩
    exact hanti p.1 (hmem1 p hpm) q.1 (hmem1 q hqm) hpq.1 hqp
  have hstrict2 : (sortedEntries cmp m2).Pairwise
      (fun p q : String × String => keyLe cmp p q ∧ ¬ keyLe cmp q p) := by
    refine List.Pairwise.imp_of_mem ?_
      ((sortedEntries_pairwise cmp htrans htotal m2).and hne2)
    intro p q hpm hqm hpq
    refine ⟨hpq.1, fun hqp => hpq.2 ?_⟩
    exact hanti p.1 (hmem2 p hpm) q.1 (hmem2 q hqm) hpq.1 hqp
  haveI : IsAntisymm (String × String)
      (fun p q : String × String => keyLe cmp p q ∧ ¬ keyLe cmp q p) :=
    ⟨fun _ _ h1 h2 => (h1.2 h2.1).elim⟩
  exact List.eq_of_perm_of_sorted pp hstrict1 hstrict2

theorem map_fst_pair (f : String → String) (ns : List String) :
    (ns.map (fun n => (n, f n))).map Prod.fst = ns := by
  induction ns with
  | nil => rfl
  | cons m t ih => simp [ih]

theorem resourceItems_names (inp : EmitInput) :
    (resourceItems inp).map Prod.fst =
      (classifyAssets inp.entryNames inp.assetNames).resourceNames := by
  unfold resourceItems
  exact map_fst_pair _ _

theorem styleItems_names (co : Collab) (keep : Bool) (inp : EmitInput)
    (cache0 : List (String × String)) :
    (styleItems co keep inp cache0).map Prod.fst =
      (classifyAssets inp.entryNames inp.assetNames).styleNames := by
  unfold styleItems
  exact map_fst_pair _ _

theorem entryItems_names (co : Collab) (keep : Bool) (inp : EmitInput)
    (cache0 : List (String × String)) :
    (entryItems co keep inp cache0).map Prod.fst =
      (classifyAssets inp.entryNames inp.assetNames).epNames := by
  unfold entryItems
  exact map_fst_pair _ _

theorem stAfterStyle_urlMap_keys (co : Collab) (keep : Bool) (inp : EmitInput)
    (cache0 : List (String × String)) (k : String)
    (h : (mget (stAfterStyle co keep inp cache0).urlMap k).isSome = true) :
    k ∈ (classifyAssets inp.entryNames inp.assetNames).resourceNames ∨
      k ∈ (classifyAssets inp.entryNames inp.assetNames).styleNames := by
  unfold stAfterStyle at h
  rcases runPhase_urlMap_keys _ _ _ _ _ _ h with h1 | h2
  · unfold stAfterResource at h1
    rcases runPhase_urlMap_keys _ _ _ _ _ _ h1 with h3 | h4
    · simp [stInit, mget] at h3
    · rw [resourceItems_names] at h4
      exact Or.inl h4
  · rw [styleItems_names] at h2
    exact Or.inr h2

theorem stAfterEntry_urlMap_keys (co : Collab) (keep : Bool) (inp : EmitInput)
    (cache0 : List (String × String)) (k : String)
    (h : (mget (stAfterEntry co keep inp cache0).urlMap k).isSome = true) :
    k ∈ (classifyAssets inp.entryNames inp.assetNames).resourceNames ∨
      k ∈ (classifyAssets inp.entryNames inp.assetNames).styleNames ∨
      k ∈ (classifyAssets inp.entryNames inp.assetNames).epNames := by
  unfold stAfterEntry at h
  rcases runPhase_urlMap_keys _ _ _ _ _ _ h with h1 | h2
  · rcases stAfterStyle_urlMap_keys co keep inp cache0 k h1 with h3 | h3
    · exact Or.inl h3
    · exact Or.inr (Or.inl h3)
  · rw [entryItems_names] at h2
    exact Or.inr (Or.inr h2)

theorem stAfterEntry_uploads_names (co : Collab) (keep : Bool)
    (inp : EmitInput) (cache0 : List (String × String)) (p : String × String)
    (hp : p ∈ (stAfterEntry co keep inp cache0).uploads) :
    p.1 ∈ (classifyAssets inp.entryNames inp.assetNames).resourceNames ∨
      p.1 ∈ (classifyAssets inp.entryNames inp.assetNames).styleNames ∨
      p.1 ∈ (classifyAssets inp.entryNames inp.assetNames).epNames := by
  unfold stAfterEntry at hp
  rcases runPhase_uploads_mem _ _ _ _ _ _ hp with h | ⟨hi, _⟩
  · unfold stAfterStyle at h
    rcases runPhase_uploads_mem _ _ _ _ _ _ h with h2 | ⟨hi, _⟩
    · unfold stAfterResource at h2
      rcases runPhase_uploads_mem _ _ _ _ _ _ h2 with h3 | ⟨hi, _⟩
      · simp [stInit] at h3
      · left
        rw [← resourceItems_names inp]
        exact List.mem_map_of_mem Prod.fst hi
    · right; left
      rw [← styleItems_names co keep inp cache0]
      exact List.mem_map_of_mem Prod.fst hi
  · right; right
    rw [← entryItems_names co keep inp cache0]
    exact List.mem_map_of_mem Prod.fst hi

theorem stFinal_uploads (co : Collab) (keep : Bool) (mf : MFOpt)
    (inp : EmitInput) (cache0 : List (String × String)) :
    (stFinal co keep mf inp cache0).uploads =
      (stAfterEntry co keep inp cache0).uploads := by
  unfold stFinal stAfterDocs
  by_cases h : mfTruthy mf <;> simp [h]

theorem stFinal_urlMap (co : Collab) (keep : Bool) (mf : MFOpt)
    (inp : EmitInput) (cache0 : List (String × String)) :
    (stFinal co keep mf inp cache0).urlMap =
      (stAfterEntry co keep inp cache0).urlMap := by
  unfold stFinal stAfterDocs
  by_cases h : mfTruthy mf <;> simp [h]

theorem stFinal_cache (co : Collab) (keep : Bool) (mf : MFOpt)
    (inp : EmitInput) (cache0 : List (String × String)) :
    (stFinal co keep mf inp cache0).cache =
      (stAfterEntry co keep inp cache0).cache := by
  unfold stFinal stAfterDocs
  by_cases h : mfTruthy mf <;> simp [h]

/-- C5 (amended): manifest serialization renders, for the pretty and the
compact form alike, the same entry list sorted by the `localeCompare`
collation — the `pretty` flag changes only the indentation, never the content
or the ordering.  Byte-identical output across insertion orders holds
provided the collation is a consistent comparator (transitive and total)
that never ties two distinct keys of the map; when the collation does tie
distinct keys — as default-locale `localeCompare` does for canonically
equivalent names — the stable sort preserves their insertion order and the
guarantee fails (see the counterexample).  The order is the collation order,
not code-point lexicographic order. -/
theorem manifest_serialization_deterministic (cmp : String → String → Int)
    (m1 m2 : List (String × String)) (fmt : Bool)
    (htrans : ∀ a b c : String, cmp a b ≤ 0 → cmp b c ≤ 0 → cmp a c ≤ 0)
    (htotal : ∀ a b : String, cmp a b ≤ 0 ∨ cmp b a ≤ 0)
    (hnd : (m1.map Prod.fst).Nodup)
    (hanti : ∀ k1 ∈ m1.map Prod.fst, ∀ k2 ∈ m1.map Prod.fst,
      cmp k1 k2 ≤ 0 → cmp k2 k1 ≤ 0 → k1 = k2)
    (hp : m1.Perm m2) :
    getManifestJSON cmp m1 fmt = getManifestJSON cmp m2 fmt ∧
      ∃ E : List (String × String), E.Perm m1 ∧
        E.Pairwise (keyLe cmp) ∧
        getManifestJSON cmp m1 true = renderPretty E ∧
        getManifestJSON cmp m1 false = renderCompact E := by
  have he := sortedEntries_eq_of_perm cmp m1 m2 htrans htotal hnd hanti hp
  refine ⟨?_, sortedEntries cmp m1, sortedEntries_perm cmp m1,
    sortedEntries_pairwise cmp htrans htotal m1, ?_, ?_⟩
  · unfold getManifestJSON
    rw [he]
  · unfold getManifestJSON
    simp
  · unfold getManifestJSON
    simp

/-- C5 witness: under a collation that never ties distinct keys (code-point
comparison), two insertion orders of the same two entries serialize
identically, and both renderings use the same sorted entry list. -/
theorem manifest_serialization_deterministic_witness :
    getManifestJSON cmpCode [("b", "2"), ("a", "1")] false =
        getManifestJSON cmpCode [("a", "1"), ("b", "2")] false ∧
      ∃ E : List (String × String),
        E.Perm [("b", "2"), ("a", "1")] ∧
        E.Pairwise (keyLe cmpCode) ∧
        getManifestJSON cmpCode [("b", "2"), ("a", "1")] true =
          renderPretty E ∧
        getManifestJSON cmpCode [("b", "2"), ("a", "1")] false =
          renderCompact E :=
  manifest_serialization_deterministic cmpCode [("b", "2"), ("a", "1")]
    [("a", "1"), ("b", "2")] false
    (fun a b c h1 h2 => (cmpCode_le_iff a c).2
      (le_trans ((cmpCode_le_iff a b).1 h1) ((cmpCode_le_iff b c).1 h2)))
    (fun a b => (le_total a b).imp (cmpCode_le_iff a b).2 (cmpCode_le_iff b a).2)
    (by decide)
    (fun k1 _ k2 _ h1 h2 =>
      le_antisymm ((cmpCode_le_iff k1 k2).1 h1) ((cmpCode_le_iff k2 k1).1 h2))
    (by decide)

/-- C5 counterexample: default-locale `localeCompare` ties the distinct
canonically-equivalent keys `"\u00e9"` (precomposed) and `"e\u0301"`
(decomposed), and the sort is stable, so the two insertion orders of the same
entries serialize to different bytes — refuting byte-identical output
regardless of insertion order (the first output also has its keys outside
code-point lexicographic order). -/
theorem locale_ties_break_determinism_counterexample :
    ([("\u00e9", "1"), ("e\u0301", "2")] : List (String × String)).Perm
        [("e\u0301", "2"), ("\u00e9", "1")] ∧
      (([("\u00e9", "1"), ("e\u0301", "2")] : List (String × String)).map
        Prod.fst).Nodup ∧
      getManifestJSON cmpCanon [("\u00e9", "1"), ("e\u0301", "2")] false ≠
        getManifestJSON cmpCanon [("e\u0301", "2"), ("\u00e9", "1")] false := by
  refine ⟨by decide, by decide, by decide⟩

/-- C4 (amended): the four name sets are pairwise disjoint and Entry takes
precedence; a `.map`-suffixed asset is excluded from the Style, Document and
Resource sets, but — unlike the claim as stated — an asset declared by an
entry point lands in the Entry set even when its name ends in `.map`, because
the `.map` filter only guards the `stats.assets` loop, not `epNames`. -/
theorem classification_partition (e a : List String) (n : String) :
    (n ∈ (classifyAssets e a).epNames →
      n ∉ (classifyAssets e a).styleNames ∧
        n ∉ (classifyAssets e a).htmlNames ∧
        n ∉ (classifyAssets e a).resourceNames) ∧
    (n ∈ (classifyAssets e a).styleNames →
      n ∉ (classifyAssets e a).htmlNames ∧
        n ∉ (classifyAssets e a).resourceNames) ∧
    (n ∈ (classifyAssets e a).htmlNames →
      n ∉ (classifyAssets e a).resourceNames) ∧
    (strEndsWith n ".map" = true →
      n ∉ (classifyAssets e a).styleNames ∧
        n ∉ (classifyAssets e a).htmlNames ∧
        n ∉ (classifyAssets e a).resourceNames) := by
  refine ⟨?_, ?_, ?_, ?_⟩
  · intro hep
    have he : n ∈ e := (mem_epNames_classify e a n).1 hep
    refine ⟨fun hs => ?_, fun hh => ?_, fun hr => ?_⟩
    · exact ((mem_styleNames_classify e a n).1 hs).2.2.1 he
    · exact ((mem_htmlNames_classify e a n).1 hh).2.2.1 he
    · exact ((mem_resourceNames_classify e a n).1 hr).2.2.1 he
  · intro hs
    have hcss := ((mem_styleNames_classify e a n).1 hs).2.2.2
    refine ⟨fun hh => ?_, fun hr => ?_⟩
    · have := ((mem_htmlNames_classify e a n).1 hh).2.2.2.1
      rw [hcss] at this
      exact Bool.true_eq_false.mp this
    · have := ((mem_resourceNames_classify e a n).1 hr).2.2.2.1
      rw [hcss] at this
      exact Bool.true_eq_false.mp this
  · intro hh
    have hhtml := ((mem_htmlNames_classify e a n).1 hh).2.2.2.2
    intro hr
    have := ((mem_resourceNames_classify e a n).1 hr).2.2.2.2
    rw [hhtml] at this
    exact Bool.true_eq_false.mp this
  · intro hmap
    refine ⟨fun hs => ?_, fun hh => ?_, fun hr => ?_⟩
    · have := ((mem_styleNames_classify e a n).1 hs).2.1
      rw [hmap] at this
      exact Bool.true_eq_false.mp this
    · have := ((mem_htmlNames_classify e a n).1 hh).2.1
      rw [hmap] at this
      exact Bool.true_eq_false.mp this
    · have := ((mem_resourceNames_classify e a n).1 hr).2.1
      rw [hmap] at this
      exact Bool.true_eq_false.mp this

/-- C4 witness: on the sample build, the entry script is in no other set, the
stylesheet is in neither remaining set, the document is not a resource, and
the `.map` asset is in none of the three non-entry sets. -/
theorem classification_partition_witness :
    ("main.js" ∉ (classifyAssets inpS.entryNames inpS.assetNames).styleNames ∧
      "main.js" ∉ (classifyAssets inpS.entryNames inpS.assetNames).htmlNames ∧
      "main.js" ∉
        (classifyAssets inpS.entryNames inpS.assetNames).resourceNames) ∧
    ("x.map" ∉ (classifyAssets inpS.entryNames inpS.assetNames).styleNames ∧
      "x.map" ∉ (classifyAssets inpS.entryNames inpS.assetNames).htmlNames ∧
      "x.map" ∉
        (classifyAssets inpS.entryNames inpS.assetNames).resourceNames) :=
  ⟨(classification_partition inpS.entryNames inpS.assetNames "main.js").1
      (by decide),
    (classification_partition inpS.entryNames inpS.assetNames "x.map").2.2.2
      (by decide)⟩

/-- C4 counterexample: the claim as stated says a `.map`-suffixed asset
appears in none of the four sets, but an asset declared by an entry point is
added to `epNames` before the `.map` filter is ever consulted, so an
entry-declared `a.map` is classified as Entry (and is therefore published). -/
theorem map_entry_classified_counterexample :
    strEndsWith "a.map" ".map" = true ∧
      "a.map" ∈ (classifyAssets ["a.map"] ["a.map"]).epNames := by
  constructor
  · decide
  · decide

/-- C8: a truthy `publicPath` in the build configuration makes the pipeline
throw at configuration-validation time: the result is the configuration error
for every possible collaborator, option set, asset set and cache, so no
classification, rewriting or uploading ever happens. -/
theorem publicPath_truthy_aborts_build (pp : Option String) (co : Collab)
    (keep : Bool) (mf : MFOpt) (inp : EmitInput)
    (cache0 : List (String × String)) (h : publicPathTruthy pp = true) :
    runBuild pp co keep mf inp cache0 =
      Except.error "Error: You should set publicPath to \"\"" := by
  unfold runBuild
  rw [h]
  rfl

/-- C8 witness: a build configured with `publicPath = "/cdn/"` aborts with
the configuration error. -/
theorem publicPath_truthy_aborts_build_witness :
    runBuild (some "/cdn/") coS true .undef inpS [] =
      Except.error "Error: You should set publicPath to \"\"" :=
  publicPath_truthy_aborts_build (some "/cdn/") coS true .undef inpS []
    (by decide)

/-- C9: `NODE_ENV` overrides the compiler mode: a non-empty value other than
`production` disables the whole pipeline for every mode (including
`production`), while an unset or empty `NODE_ENV` leaves the decision to the
compiler mode. -/
theorem nodeEnv_overrides_mode (e : String) (mode pp : Option String)
    (co : Collab) (keep : Bool) (mf : MFOpt) (inp : EmitInput)
    (cache0 : List (String × String)) (he : e ≠ "")
    (hprod : e ≠ "production") :
    runPlugin (some e) mode pp co keep mf inp cache0 = none ∧
      (∀ m2 : Option String,
        runPlugin none m2 pp co keep mf inp cache0 =
          if m2 = some "production"
            then some (runBuild pp co keep mf inp cache0) else none) ∧
      (∀ m2 : Option String,
        runPlugin (some "") m2 pp co keep mf inp cache0 =
          if m2 = some "production"
            then some (runBuild pp co keep mf inp cache0) else none) := by
  refine ⟨?_, ?_, ?_⟩
  · unfold runPlugin pluginEnabled envOrMode
    simp [he, hprod]
  · intro m2
    unfold runPlugin pluginEnabled envOrMode
    by_cases hm : m2 = some "production" <;> simp [hm]
  · intro m2
    unfold runPlugin pluginEnabled envOrMode
    by_cases hm : m2 = some "production" <;> simp [hm]

/-- C9 witness: `NODE_ENV = "test"` disables the pipeline even with the
compiler mode set to `production`, while with `NODE_ENV` unset the
`production` mode enables it. -/
theorem nodeEnv_overrides_mode_witness :
    runPlugin (some "test") (some "production") none coS true .undef inpS [] =
        none ∧
      runPlugin none (some "production") none coS true .undef inpS [] =
        if (some "production" : Option String) = some "production"
          then some (runBuild none coS true .undef inpS []) else none :=
  ⟨(nodeEnv_overrides_mode "test" (some "production") none coS true .undef
      inpS [] (by decide) (by decide)).1,
    (nodeEnv_overrides_mode "test" (some "production") none coS true .undef
      inpS [] (by decide) (by decide)).2.1 (some "production")⟩

/-- C3 (amended): a missing persisted cache file yields an empty cache, but a
file whose contents the JSON parser rejects makes the initialize hook throw:
the `JSON.parse` call of line 56 is wrapped in no `try`/`catch`, so the parse
error propagates and aborts the pipeline instead of yielding an empty
cache. -/
theorem loadCache_missing_empty_malformed_throws
    (parse : String → Option (List (String × String))) (contents : String) :
    loadCache parse false contents = Except.ok [] ∧
      (parse contents = none →
        loadCache parse true contents =
          Except.error "SyntaxError: Unexpected token") := by
  constructor
  · rfl
  · intro h
    unfold loadCache
    rw [h]
    rfl

/-- C3 witness: a missing file gives the empty cache, and contents rejected
by the parser abort the load. -/
theorem loadCache_missing_empty_malformed_throws_witness :
    loadCache (fun _ => none) false "x" = Except.ok [] ∧
      loadCache (fun _ => none) true "not json" =
        Except.error "SyntaxError: Unexpected token" :=
  ⟨(loadCache_missing_empty_malformed_throws (fun _ => none) "x").1,
    (loadCache_missing_empty_malformed_throws (fun _ => none) "not json").2
      rfl⟩

/-- C3 counterexample: with a parser that rejects the file contents — as
`JSON.parse` does on malformed JSON — the load step produces an error, not
the empty cache the claim promises. -/
theorem loadCache_malformed_aborts_counterexample :
    loadCache (fun _ => none) true "not json" =
        Except.error "SyntaxError: Unexpected token" ∧
      loadCache (fun _ => none) true "not json" ≠ Except.ok [] := by
  refine ⟨rfl, fun h => ?_⟩
  exact absurd (rfl.symm.trans h) (by intro hc; cases hc)

/-- C6: when the uploader resolves with no usable location (null, undefined,
a non-string value, or an empty string) for an asset whose fingerprint is not
cached, the asset stays unpublished and the phase result is a normal state:
the only changes are the logged upload attempt (and, in overwrite phases, the
local overwrite) — no `urlMap` entry, no cache entry, no deletion. -/
theorem upload_no_location_unpublished (co : Collab) (keep so : Bool)
    (st : St) (n c : String) (hmiss : mget st.cache (co.md5 c) = none)
    (hfail : usableUrl (co.uploadContent n c (extname n)) = none) :
    runPhase co keep so [(n, c)] st =
      { st with
        overwritten :=
          if so then st.overwritten ++ [(n, c)] else st.overwritten
        uploads := st.uploads ++ [(n, c)] } := by
  rw [runPhase_def2]
  simp only [List.map_cons, List.map_nil]
  unfold decideUrl
  rw [hmiss]
  rw [List.foldl_cons, List.foldl_nil]
  unfold applyDec
  simp only [hfail]
  rfl

/-- C6 witness: a resource whose upload resolves to null leaves the state
unchanged apart from the logged upload attempt. -/
theorem upload_no_location_unpublished_witness :
    runPhase coN true false [("a.png", "X")] (stInit []) =
      { stInit [] with
        overwritten :=
          if false then (stInit []).overwritten ++ [("a.png", "X")]
          else (stInit []).overwritten
        uploads := (stInit []).uploads ++ [("a.png", "X")] } :=
  upload_no_location_unpublished coN true false (stInit []) "a.png" "X" rfl
    rfl

/-- C10: with `keepLocalFiles = false`, every asset name that gains a
`urlMap` entry during a phase — whether the location came from a fresh
upload or from a cache hit on its fingerprint — is deleted locally by the end
of that phase. -/
theorem delete_local_on_record (co : Collab) (so : Bool)
    (items : List (String × String)) (st : St) (k : String)
    (hk : (mget (runPhase co false so items st).urlMap k).isSome = true)
    (h0 : (mget st.urlMap k).isSome = false) :
    k ∈ (runPhase co false so items st).deleted := by
  rcases runPhase_deleted_tracks co so items st k hk with h | h
  · rw [h0] at h
    exact absurd h (by simp)
  · exact h

/-- C10 witness: a resource whose fingerprint is already cached gets its
location from the cache — no upload happens — and its local file is still
deleted. -/
theorem delete_local_on_record_witness :
    "a.png" ∈
      (runPhase coS false false [("a.png", "X")]
        (stInit [("X", "u")])).deleted ∧
      (runPhase coS false false [("a.png", "X")]
        (stInit [("X", "u")])).uploads = [] :=
  ⟨delete_local_on_record coS false [("a.png", "X")] (stInit [("X", "u")])
      "a.png" (by decide) (by decide),
    by decide⟩

/-- C1 (amended): once a fingerprint maps to a non-empty remote location in
the upload cache at the start of a phase — covering entries loaded from the
persisted cache of an earlier build and entries recorded by uploads of
earlier phases in the same cycle — an asset of that phase with that
fingerprint reuses the cached location and `uploadContent` is never invoked
for that fingerprint in the phase.  (Two same-phase assets with identical
content bytes are *not* covered: both look the fingerprint up before either
upload completes, so both invoke `uploadContent`; see the counterexample.) -/
theorem cached_fingerprint_not_reuploaded (co : Collab) (keep so : Bool)
    (items : List (String × String)) (st : St) (n c u : String)
    (hmem : (n, c) ∈ items) (hm : mget st.cache (co.md5 c) = some u)
    (hu : u ≠ "") (hnd : (items.map Prod.fst).Nodup) :
    mget (runPhase co keep so items st).urlMap n = some u ∧
      ∀ p ∈ (runPhase co keep so items st).uploads,
        p ∈ st.uploads ∨ co.md5 p.2 ≠ co.md5 c := by
  refine ⟨(runPhase_hit co keep so items st n c u hmem hm hu hnd).1, ?_⟩
  intro p hp
  rcases runPhase_uploads_mem co keep so items st p hp with h | ⟨_, hmiss⟩
  · exact Or.inl h
  · right
    intro heq
    rw [heq, hm] at hmiss
    rcases hmiss with h1 | h1
    · cases h1
    · exact hu (Option.some.inj h1)

/-- C1 witness: with the fingerprint of content `X` cached as `u`, the phase
reuses `u` for the asset and performs no upload at all. -/
theorem cached_fingerprint_not_reuploaded_witness :
    mget (runPhase coS true false [("a.png", "X")]
        (stInit [("X", "u")])).urlMap "a.png" = some "u" ∧
      ∀ p ∈ (runPhase coS true false [("a.png", "X")]
          (stInit [("X", "u")])).uploads,
        p ∈ (stInit [("X", "u")]).uploads ∨ coS.md5 p.2 ≠ coS.md5 "X" :=
  cached_fingerprint_not_reuploaded coS true false [("a.png", "X")]
    (stInit [("X", "u")]) "a.png" "X" "u" (by decide) (by decide) (by decide)
    (by decide)

/-- C1 counterexample: two resource assets of the same phase with identical
content bytes both invoke `uploadContent`: every mapped `uploadFile` call
checks the cache synchronously before any upload completes, so the second
lookup still misses and the collaborator is invoked twice for one
fingerprint. -/
theorem duplicate_content_double_upload_counterexample :
    ((stFinal coS true .undef
        { entryNames := [], assetNames := ["a.png", "b.png"],
          assetMap := [("a.png", "X"), ("b.png", "X")] } []).uploads.filter
      (fun p => coS.md5 p.2 == coS.md5 "X")).length = 2 ∧
      (stFinal coS true .undef
        { entryNames := [], assetNames := ["a.png", "b.png"],
          assetMap := [("a.png", "X"), ("b.png", "X")] } []).uploads =
        [("a.png", "X"), ("b.png", "X")] := by
  constructor
  · decide
  · decide

/-- C2: the manifest string handed to `injectAssetManifest` for every entry
asset is the serialization of exactly the `urlMap` state at the end of the
style phase: that state holds only resource- and style-phase names, and in
particular no entry asset (its own name included) has a remote location in
it. -/
theorem entry_manifest_reflects_style_state (co : Collab) (keep : Bool)
    (inp : EmitInput) (cache0 : List (String × String)) (n : String)
    (hn : n ∈ (classifyAssets inp.entryNames inp.assetNames).epNames) :
    (n, co.injectAssetManifest (getAsset inp n)
        (getManifestJSON co.localeCompare
          (stAfterStyle co keep inp cache0).urlMap false)) ∈
      entryItems co keep inp cache0 ∧
    (∀ e2 ∈ (classifyAssets inp.entryNames inp.assetNames).epNames,
      mget (stAfterStyle co keep inp cache0).urlMap e2 = none) ∧
    (∀ k, (mget (stAfterStyle co keep inp cache0).urlMap k).isSome = true →
      k ∈ (classifyAssets inp.entryNames inp.assetNames).resourceNames ∨
        k ∈ (classifyAssets inp.entryNames inp.assetNames).styleNames) := by
  refine ⟨?_, ?_, fun k => stAfterStyle_urlMap_keys co keep inp cache0 k⟩
  · unfold entryItems entryManifestArg
    exact List.mem_map_of_mem _ hn
  · intro e2 he2
    have he : e2 ∈ inp.entryNames :=
      (mem_epNames_classify inp.entryNames inp.assetNames e2).1 he2
    cases hq : mget (stAfterStyle co keep inp cache0).urlMap e2 with
    | none => rfl
    | some u =>
      exfalso
      have hs : (mget (stAfterStyle co keep inp cache0).urlMap e2).isSome =
          true := by
        rw [hq]
        rfl
      rcases stAfterStyle_urlMap_keys co keep inp cache0 e2 hs with h | h
      · exact ((mem_resourceNames_classify inp.entryNames inp.assetNames
          e2).1 h).2.2.1 he
      · exact ((mem_styleNames_classify inp.entryNames inp.assetNames
          e2).1 h).2.2.1 he

/-- C2 witness: on the sample build, the entry script's injected manifest is
the style-phase `urlMap` serialization, which contains no entry name. -/
theorem entry_manifest_reflects_style_state_witness :
    ("main.js", coS.injectAssetManifest (getAsset inpS "main.js")
        (getManifestJSON coS.localeCompare
          (stAfterStyle coS true inpS []).urlMap false)) ∈
      entryItems coS true inpS [] ∧
    (∀ e2 ∈ (classifyAssets inpS.entryNames inpS.assetNames).epNames,
      mget (stAfterStyle coS true inpS []).urlMap e2 = none) ∧
    (∀ k, (mget (stAfterStyle coS true inpS []).urlMap k).isSome = true →
      k ∈ (classifyAssets inpS.entryNames inpS.assetNames).resourceNames ∨
        k ∈ (classifyAssets inpS.entryNames inpS.assetNames).styleNames) :=
  entry_manifest_reflects_style_state coS true inpS [] "main.js" (by decide)

/-- C7: a document (`.html`) asset is never passed to the upload
collaborator: no upload invocation of the whole cycle names it, it never
obtains a `urlMap` entry, the document phase leaves the upload cache
untouched, and the document is only rewritten in place by the local
overwrite. -/
theorem documents_not_uploaded (co : Collab) (keep : Bool) (mf : MFOpt)
    (inp : EmitInput) (cache0 : List (String × String)) (d : String)
    (hd : d ∈ (classifyAssets inp.entryNames inp.assetNames).htmlNames) :
    (∀ p ∈ (stFinal co keep mf inp cache0).uploads, p.1 ≠ d) ∧
    mget (stFinal co keep mf inp cache0).urlMap d = none ∧
    (stFinal co keep mf inp cache0).cache =
      (stAfterEntry co keep inp cache0).cache ∧
    (d, co.interpolateHTMLAssets (getAsset inp d)
        (stAfterEntry co keep inp cache0).urlMap
        (getManifestJSON co.localeCompare
          (stAfterEntry co keep inp cache0).urlMap false)) ∈
      (stFinal co keep mf inp cache0).overwritten := by
  have hhtml := (mem_htmlNames_classify inp.entryNames inp.assetNames d).1 hd
  have hdr : d ∉ (classifyAssets inp.entryNames inp.assetNames).resourceNames :=
    fun hc => by
      have := ((mem_resourceNames_classify inp.entryNames inp.assetNames
        d).1 hc).2.2.2.2
      rw [hhtml.2.2.2.2] at this
      exact Bool.true_eq_false.mp this
  have hds : d ∉ (classifyAssets inp.entryNames inp.assetNames).styleNames :=
    fun hc => by
      have := ((mem_styleNames_classify inp.entryNames inp.assetNames
        d).1 hc).2.2.2
      rw [hhtml.2.2.2.1] at this
      exact Bool.true_eq_false.mp this.symm
  have hde : d ∉ (classifyAssets inp.entryNames inp.assetNames).epNames :=
    fun hc =>
      hhtml.2.2.1 ((mem_epNames_classify inp.entryNames inp.assetNames d).1 hc)
  refine ⟨?_, ?_, stFinal_cache co keep mf inp cache0, ?_⟩
  · intro p hp
    rw [stFinal_uploads] at hp
    intro hpd
    rcases stAfterEntry_uploads_names co keep inp cache0 p hp with h | h | h
    · exact hdr (hpd ▸ h)
    · exact hds (hpd ▸ h)
    · exact hde (hpd ▸ h)
  · rw [stFinal_urlMap]
    cases hq : mget (stAfterEntry co keep inp cache0).urlMap d with
    | none => rfl
    | some u =>
      exfalso
      have hs : (mget (stAfterEntry co keep inp cache0).urlMap d).isSome =
          true := by
        rw [hq]
        rfl
      rcases stAfterEntry_urlMap_keys co keep inp cache0 d hs with h | h | h
      · exact hdr h
      · exact hds h
      · exact hde h
  · have hmem : (d, co.interpolateHTMLAssets (getAsset inp d)
        (stAfterEntry co keep inp cache0).urlMap
        (getManifestJSON co.localeCompare
          (stAfterEntry co keep inp cache0).urlMap false)) ∈
        (stAfterDocs co keep inp cache0).overwritten := by
      unfold stAfterDocs
      exact List.mem_append_right _ (List.mem_map_of_mem _ hd)
    unfold stFinal
    by_cases h : mfTruthy mf
    · simp only [h, if_true]
      exact List.mem_append_left _ hmem
    · simp only [h, if_false]
      exact hmem

/-- C7 witness: on the sample build, the document `i.html` is uploaded by no
phase, has no `urlMap` entry, and is only rewritten locally. -/
theorem documents_not_uploaded_witness :
    (∀ p ∈ (stFinal coS true .undef inpS []).uploads, p.1 ≠ "i.html") ∧
    mget (stFinal coS true .undef inpS []).urlMap "i.html" = none ∧
    (stFinal coS true .undef inpS []).cache =
      (stAfterEntry coS true inpS []).cache ∧
    ("i.html", coS.interpolateHTMLAssets (getAsset inpS "i.html")
        (stAfterEntry coS true inpS []).urlMap
        (getManifestJSON coS.localeCompare
          (stAfterEntry coS true inpS []).urlMap false)) ∈
      (stFinal coS true .undef inpS []).overwritten :=
  documents_not_uploaded coS true .undef inpS [] "i.html" (by decide)

end CDN
